import Mathlib

/-!
Verification of the transcript-normalization and clip-timeline logic of the
clip-Backend repository.  JavaScript numbers are modelled as rationals (ℚ);
`Number(x.toFixed(k))` is modelled as rounding to k decimal places over ℚ,
and JavaScript `undefined`-able fields are modelled with `Option`.
-/

/-- Rounding to 3 decimal places, the model of `Number(x.toFixed(3))`. -/
def round3 (q : ℚ) : ℚ := ((round (q * 1000) : ℤ) : ℚ) / 1000

/-- Rounding to 2 decimal places, the model of the 2-decimal consumer-facing
timecodes used for clip boundaries. -/
def round2 (q : ℚ) : ℚ := ((round (q * 100) : ℤ) : ℚ) / 100

theorem round3_idem (q : ℚ) : round3 (round3 q) = round3 q := by
  unfold round3
  rw [div_mul_cancel₀ _ (by norm_num : (1000 : ℚ) ≠ 0), round_intCast]

theorem round3_mono {a b : ℚ} (h : a ≤ b) : round3 a ≤ round3 b := by
  unfold round3
  have h2 : round (a * 1000) ≤ round (b * 1000) := by
    rw [round_eq, round_eq]
    exact Int.floor_mono (by linarith)
  have h3 : ((round (a * 1000) : ℤ) : ℚ) ≤ ((round (b * 1000) : ℤ) : ℚ) :=
    Int.cast_le.mpr h2
  exact div_le_div_of_nonneg_right h3 (by norm_num) |>.trans_eq rfl

theorem round3_intCast (n : ℤ) : round3 ((n : ℚ)) = n := by
  unfold round3
  rw [show ((n : ℚ) * 1000) = ((n * 1000 : ℤ) : ℚ) by push_cast; ring, round_intCast]
  push_cast
  field_simp

theorem round3_eval (q : ℚ) (n : ℤ) (h : q * 1000 = (n : ℚ)) :
    round3 q = (n : ℚ) / 1000 := by
  unfold round3
  rw [h, round_intCast]

theorem round2_intCast (n : ℤ) : round2 ((n : ℚ)) = n := by
  unfold round2
  rw [show ((n : ℚ) * 100) = ((n * 100 : ℤ) : ℚ) by push_cast; ring, round_intCast]
  push_cast
  field_simp

theorem round2_eval (q : ℚ) (n : ℤ) (h : q * 100 = (n : ℚ)) :
    round2 q = (n : ℚ) / 100 := by
  unfold round2
  rw [h, round_intCast]

/-! ## Timestamp normalizer

Model of the millisecond heuristic appearing identically in
`src/routes/videoRoutes.js` (GET `/:videoId/transcript`) and in the
`processVideo` normalization map: `if (v > 1000) v /= 1000`. -/

/-- The unit heuristic: a raw value above 1000 is assumed to be milliseconds
and divided by 1000 (`if (start > 1000) start /= 1000`). -/
def msToSeconds (v : ℚ) : ℚ := if v > 1000 then v / 1000 else v

/-- The timestamp normalizer: unit heuristic followed by the 3-decimal
rounding that the segment map applies on output
(`Number(start.toFixed(3))`). -/
def normalizeTimestamp (v : ℚ) : ℚ := round3 (msToSeconds v)

/-! ## Segment validator

Model of the segment map of `src/routes/videoRoutes.js` lines 64-104 (the
`processVideo` copy in the video-processing module is the same map without
the duration clamp, i.e. the `D = none` case). -/

/-- A word-level sub-span carried through validation unchanged. -/
structure WordSpan where
  text : String
  start : ℚ
  endTime : ℚ

/-- A raw transcript segment as handed over by a transcript source.  Fields
mirror the JS accesses `segment.start ?? segment.startTime ?? 0` etc.; the JS
field `end` is called `endVal` here because `end` is reserved in Lean. -/
structure RawSegment where
  id : Option String
  text : Option String
  start : Option ℚ
  startTime : Option ℚ
  endVal : Option ℚ
  endTime : Option ℚ
  confidence : Option ℚ
  words : List WordSpan

/-- A validated transcript segment (`end` is called `endTime`). -/
structure TranscriptSegment where
  id : String
  text : String
  start : ℚ
  endTime : ℚ
  duration : ℚ
  confidence : Option ℚ
  words : List WordSpan

/-- JavaScript `a || b` for strings: `b` when `a` is undefined or empty. -/
def jsOrString (a : Option String) (b : String) : String :=
  match a with
  | none => b
  | some s => if s = "" then b else s

/-- Model of `segment.start ?? segment.startTime ?? 0`. -/
def rawStart (r : RawSegment) : ℚ := ((r.start).orElse fun _ => r.startTime).getD 0

/-- Model of `segment.end ?? segment.endTime ?? 0`. -/
def rawEnd (r : RawSegment) : ℚ := ((r.endVal).orElse fun _ => r.endTime).getD 0

/-- Start after the ms heuristic and the negative-start repair
(`if (start < 0) start = 0`). -/
def repairedStart (r : RawSegment) : ℚ :=
  let s := msToSeconds (rawStart r)
  if s < 0 then 0 else s

/-- End after the ms heuristic and the inversion repair
(`if (end <= start) end = start + 1`). -/
def repairedEnd (r : RawSegment) : ℚ :=
  let e := msToSeconds (rawEnd r)
  if e ≤ repairedStart r then repairedStart r + 1 else e

/-- End after the duration clamp
(`if (video.duration && end > video.duration) end = video.duration`); a
stored duration of 0 is falsy in JS, hence the `d ≠ 0` guard. -/
def clampedEnd (D : Option ℚ) (r : RawSegment) : ℚ :=
  match D with
  | some d => if d ≠ 0 ∧ d < repairedEnd r then d else repairedEnd r
  | none => repairedEnd r

/-- The full per-segment validation step of the segment map: resolve fields,
normalize, repair, clamp, then emit the rounded validated segment. -/
def validateSegment (D : Option ℚ) (index : Nat) (r : RawSegment) : TranscriptSegment :=
  { id := jsOrString r.id ("segment-" ++ toString index)
    text := jsOrString r.text ""
    start := round3 (repairedStart r)
    endTime := round3 (clampedEnd D r)
    duration := round3 (clampedEnd D r - repairedStart r)
    confidence := r.confidence
    words := r.words }

/-- Model of `transcript.segments.map((segment, index) => ...)`. -/
def validateSegments (D : Option ℚ) (rs : List RawSegment) : List TranscriptSegment :=
  rs.mapIdx (validateSegment D)

/-! ## Transcript assembly duration (`processVideo`)

Model of the duration validation in `processVideo`: `transcript.duration || 0`,
ms heuristic, then fall back to the last segment end only when the value is
falsy; an empty segment list raises an error before any of this runs. -/

/-- Duration validation of `processVideo` (lines 119-126). -/
def transcriptDuration (srcDuration : Option ℚ) (segs : List TranscriptSegment) : ℚ :=
  let d := msToSeconds (srcDuration.getD 0)
  if d = 0 then
    match segs.getLast? with
    | some s => s.endTime
    | none => 0
  else d

/-- The transcript validation part of `processVideo`: reject empty segment
lists (`No transcript segments generated`), otherwise normalize the segments
(no media-duration clamp in this copy) and compute the stored duration
(`Number(duration.toFixed(3))`). -/
def processTranscript (srcDuration : Option ℚ) (rawSegs : List RawSegment) :
    Except String (List TranscriptSegment × ℚ) :=
  if rawSegs.isEmpty then Except.error "No transcript segments generated"
  else
    Except.ok (validateSegments none rawSegs,
      round3 (transcriptDuration srcDuration (validateSegments none rawSegs)))

/-! ## Clip timeline scheduler

Modelled from the spec: the repository does not implement the Clip Timeline
Scheduler as executable code — the scheduling rules (2-second padding,
0.5-second minimum gap, 3-60 second duration bounds, overlap rejection) exist
only as natural-language RULES inside the LLM prompt built by
`generateClips` (`chunkPrompt`, `src/controllers/initialVersion/generateClips.js`
lines 199-206).  The definitions below follow the spec's §4.4 step list. -/

/-- Modelled from the spec: default minimum scheduled-clip duration. -/
def minDurationSeconds : ℚ := 3

/-- Modelled from the spec: default maximum scheduled-clip duration. -/
def maxDurationSeconds : ℚ := 60

/-- Modelled from the spec: default start padding. -/
def startPaddingSeconds : ℚ := 2

/-- Modelled from the spec: default end padding. -/
def endPaddingSeconds : ℚ := 2

/-- Modelled from the spec: default minimum gap between clips on one source. -/
def minGapSeconds : ℚ := 1 / 2

/-- A proposed clip, as in the clip JSON schema exchanged with the LLM. -/
structure ClipCandidate where
  videoId : String
  transcriptText : String
  startTime : ℚ
  endTime : ℚ

/-- An accepted clip of the output timeline. -/
structure ScheduledClip where
  videoId : String
  transcriptText : String
  startTime : ℚ
  endTime : ℚ

/-- Modelled from the spec: §4.4 steps 1-2, round the candidate start to
2 decimals and apply start padding only when `start > startPaddingSeconds`. -/
def paddedStart (c : ClipCandidate) : ℚ :=
  let s0 := round2 c.startTime
  if s0 > startPaddingSeconds then s0 - startPaddingSeconds else s0

/-- Modelled from the spec: §4.4 steps 3-5, unconditional end padding, clamp
to the known source duration, then enforce the min/max duration bounds. -/
def boundedEnd (durOf : String → Option ℚ) (c : ClipCandidate) : ℚ :=
  let s1 := paddedStart c
  let e1 := round2 c.endTime + endPaddingSeconds
  let e2 := match durOf c.videoId with
    | some d => min e1 d
    | none => e1
  if e2 - s1 < minDurationSeconds then
    match durOf c.videoId with
    | some d => min (s1 + minDurationSeconds) d
    | none => s1 + minDurationSeconds
  else if e2 - s1 > maxDurationSeconds then s1 + maxDurationSeconds
  else e2

/-- Modelled from the spec: §4.4 steps 6-7 for one candidate.  The state is
the accepted timeline so far plus, per source id, the end of the last
accepted clip from that source (an association list, most recent first).
A candidate whose gap-shifted start reaches or passes its adjusted end is
discarded, leaving the state untouched. -/
def scheduleStep (durOf : String → Option ℚ)
    (st : List ScheduledClip × List (String × ℚ)) (c : ClipCandidate) :
    List ScheduledClip × List (String × ℚ) :=
  let s1 := paddedStart c
  let e3 := boundedEnd durOf c
  match st.2.lookup c.videoId with
  | none => (st.1 ++ [⟨c.videoId, c.transcriptText, s1, e3⟩], (c.videoId, e3) :: st.2)
  | some pe =>
    if s1 < pe + minGapSeconds then
      if pe + minGapSeconds ≥ e3 then st
      else (st.1 ++ [⟨c.videoId, c.transcriptText, pe + minGapSeconds, e3⟩],
            (c.videoId, e3) :: st.2)
    else (st.1 ++ [⟨c.videoId, c.transcriptText, s1, e3⟩], (c.videoId, e3) :: st.2)

/-- Modelled from the spec: the scheduler processes candidates in input
order and returns the accepted timeline. -/
def scheduleClips (durOf : String → Option ℚ) (cands : List ClipCandidate) :
    List ScheduledClip :=
  (cands.foldl (scheduleStep durOf) ([], [])).1

/-- Consecutive accepted clips drawn from one source respect the minimum
gap: on the sub-timeline of each source id, every clip starts at or after
the previous end plus `minGapSeconds`. -/
def sameSourceGapFree (l : List ScheduledClip) : Prop :=
  ∀ v : String,
    List.Chain' (fun a b => a.endTime + minGapSeconds ≤ b.startTime)
      (l.filter fun c => c.videoId == v)

/-! ## Render/merge order (`videoMergeClips`, initialVersion)

Model of the extraction loop and concat list of
`src/controllers/initialVersion/generateClips.js` (`videoMergeClips`):
one ffmpeg extraction per clip, pushed onto `clipFiles` in loop order, then
`concat.txt` lists `clipFiles` in that same order. -/

/-- A validated clip handed to the merge step. -/
structure MergeClip where
  videoId : String
  startTime : ℚ
  endTime : ℚ

/-- One ffmpeg extraction instruction:
`setStartTime(clip.startTime).setDuration(clip.endTime - clip.startTime)`. -/
structure ExtractionInstruction where
  videoId : String
  startTime : ℚ
  durationArg : ℚ

/-- The extraction instruction produced for one clip. -/
def extractClip (c : MergeClip) : ExtractionInstruction :=
  ⟨c.videoId, c.startTime, c.endTime - c.startTime⟩

/-- The `for (const clip of clips) { ...; clipFiles.push(tempClipPath) }`
loop: extracted outputs accumulate in loop order. -/
def extractClips (clips : List MergeClip) : List ExtractionInstruction :=
  clips.foldl (fun files c => files ++ [extractClip c]) []

/-- The concatenation instruction: `concat.txt` lists the entries of
`clipFiles` in order (`clipFiles.map(file => ...)`). -/
def concatOrder (clips : List MergeClip) : List ExtractionInstruction :=
  extractClips clips

/-! ## Merge-input validation (`videoMergeClips`, initialVersion)

Model of the `clips.forEach` presence check: a JS-falsy `videoId`,
`startTime` or `endTime` aborts the whole batch with
`Invalid clip at index i: ...`. -/

/-- A clip as received by `videoMergeClips`, fields possibly missing. -/
structure RawMergeClip where
  videoId : Option String
  startTime : Option ℚ
  endTime : Option ℚ

/-- JS falsiness of an optional string (`undefined`, `null`, `''`). -/
def jsFalsyStr : Option String → Bool
  | none => true
  | some s => s = ""

/-- JS falsiness of an optional number (`undefined`, `null`, `0`). -/
def jsFalsyNum : Option ℚ → Bool
  | none => true
  | some q => q = 0

/-- The `clips.forEach((clip, index) => { if (!clip.videoId || !clip.startTime
|| !clip.endTime) throw ... })` validation, from index `i`. -/
def validateMergeClipsFrom : Nat → List RawMergeClip → Except String Unit
  | _, [] => Except.ok ()
  | i, c :: rest =>
    if jsFalsyStr c.videoId || jsFalsyNum c.startTime || jsFalsyNum c.endTime then
      Except.error ("Invalid clip at index " ++ toString i ++
        ": missing videoId, startTime, or endTime")
    else validateMergeClipsFrom (i + 1) rest

/-- The merge entry point up to the point where clips are processed: the
presence validation runs over the whole batch first, and only if it passes
is the extraction plan built. -/
def videoMergeClipsPlan (clips : List RawMergeClip) :
    Except String (List ExtractionInstruction) :=
  match validateMergeClipsFrom 0 clips with
  | Except.error e => Except.error e
  | Except.ok _ =>
      Except.ok (extractClips (clips.map fun c =>
        ⟨(c.videoId).getD "", (c.startTime).getD 0, (c.endTime).getD 0⟩))

/-! ## Transcription poll loop (`generateTranscript`, AssemblyAI variant)

Model of the poll loop: a 10-minute (600000 ms) wall-clock budget, a fixed
5-second (5000 ms) sleep per iteration, a dedicated `Transcription timeout`
throw on expiry, and a separate throw carrying the service's own error. -/

/-- Status reported by the transcription service for a job. -/
inductive PollStatus
  | completed
  | errored (msg : String)
  | queued
  | processing
deriving DecidableEq

/-- The distinct failure conditions thrown by `generateTranscript`:
`throw new Error('Transcription timeout')` versus
`throw new Error(transcript.error)`. -/
inductive TranscriptFailure
  | transcriptionTimeout
  | serviceFailure (msg : String)
deriving DecidableEq

/-- Model of `const timeout = 600000; // 10 minutes`. -/
def pollTimeoutMs : Nat := 600000

/-- Model of `setTimeout(resolve, 5000)`: the fixed poll interval. -/
def pollIntervalMs : Nat := 5000

/-- The poll loop: `stream i` is the status visible at the i-th check
(`stream 0` from `transcripts.create`, later ones from `transcripts.get`);
`elapsed` is the wall-clock spent so far, advancing by one poll interval per
iteration.  Returns the completing check index, or a failure. -/
def pollLoop (stream : Nat → PollStatus) (i : Nat) (elapsed : Nat) :
    Except TranscriptFailure Nat :=
  match stream i with
  | PollStatus.completed => Except.ok i
  | PollStatus.errored m => Except.error (TranscriptFailure.serviceFailure m)
  | PollStatus.queued =>
      if _h : pollTimeoutMs < elapsed then Except.error TranscriptFailure.transcriptionTimeout
      else pollLoop stream (i + 1) (elapsed + pollIntervalMs)
  | PollStatus.processing =>
      if _h : pollTimeoutMs < elapsed then Except.error TranscriptFailure.transcriptionTimeout
      else pollLoop stream (i + 1) (elapsed + pollIntervalMs)
termination_by pollTimeoutMs + pollIntervalMs - elapsed
decreasing_by
  · simp only [pollTimeoutMs, pollIntervalMs] at *; omega
  · simp only [pollTimeoutMs, pollIntervalMs] at *; omega

/-- The whole transcription wait starting right after job submission. -/
def assemblyPoll (stream : Nat → PollStatus) : Except TranscriptFailure Nat :=
  pollLoop stream 0 0

/-! ## Helper lemmas -/

theorem repairedStart_lt_repairedEnd (r : RawSegment) :
    repairedStart r < repairedEnd r := by
  simp only [repairedEnd]
  split
  · linarith
  · next h => push_neg at h; exact h

theorem clampedEnd_le_duration (d : ℚ) (hd : d ≠ 0) (r : RawSegment) :
    clampedEnd (some d) r ≤ d := by
  simp only [clampedEnd]
  split
  · exact le_refl d
  · next h =>
    push_neg at h
    exact h hd

/-- C2: for every raw numeric timestamp value v, the normalizer returns
round3 (v / 1000) when v > 1000 and round3 v when v ≤ 1000. -/
theorem unit_heuristic_normalization (v : ℚ) :
    (1000 < v → normalizeTimestamp v = round3 (v / 1000)) ∧
    (v ≤ 1000 → normalizeTimestamp v = round3 v) := by
  constructor
  · intro h
    simp only [normalizeTimestamp, msToSeconds]
    rw [if_pos h]
  · intro h
    simp only [normalizeTimestamp, msToSeconds]
    rw [if_neg (not_lt.mpr h)]

theorem unit_heuristic_normalization_witness :
    (1000 < (1500 : ℚ) ∧ normalizeTimestamp 1500 = round3 (1500 / 1000)) ∧
    ((4 : ℚ) ≤ 1000 ∧ normalizeTimestamp 4 = round3 4) :=
  ⟨⟨by norm_num, (unit_heuristic_normalization 1500).1 (by norm_num)⟩,
   ⟨by norm_num, (unit_heuristic_normalization 4).2 (by norm_num)⟩⟩

/-- C3 (counterexample): normalization is not idempotent on every raw value;
at v = 2000000 the first pass yields 2000 and the second pass divides again,
yielding 2. -/
theorem normalization_not_idempotent :
    normalizeTimestamp (normalizeTimestamp 2000000) ≠ normalizeTimestamp 2000000 := by
  have h1 : normalizeTimestamp 2000000 = 2000 := by
    simp only [normalizeTimestamp, msToSeconds]
    rw [if_pos (by norm_num : (2000000 : ℚ) > 1000)]
    rw [show (2000000 : ℚ) / 1000 = ((2000 : ℤ) : ℚ) by norm_num]
    rw [round3_intCast]
    norm_num
  have h2 : normalizeTimestamp 2000 = 2 := by
    simp only [normalizeTimestamp, msToSeconds]
    rw [if_pos (by norm_num : (2000 : ℚ) > 1000)]
    rw [show (2000 : ℚ) / 1000 = ((2 : ℤ) : ℚ) by norm_num]
    rw [round3_intCast]
    norm_num
  rw [h1, h2]
  norm_num

/-- C3 (amended): normalization is idempotent for every raw value v with
v ≤ 1000000, i.e. whenever the first pass lands at or below the 1000-second
heuristic threshold; this covers every already-normalized seconds value up
to 1000. -/
theorem normalization_idempotent_below_million (v : ℚ) (h : v ≤ 1000000) :
    normalizeTimestamp (normalizeTimestamp v) = normalizeTimestamp v := by
  have hms : msToSeconds v ≤ 1000 := by
    simp only [msToSeconds]
    split
    · next hgt => rw [div_le_iff₀ (by norm_num : (0 : ℚ) < 1000)]; linarith
    · next hle => push_neg at hle; exact hle
  have hn : normalizeTimestamp v ≤ 1000 :=
    calc normalizeTimestamp v = round3 (msToSeconds v) := rfl
    _ ≤ round3 1000 := round3_mono hms
    _ = 1000 := by exact_mod_cast round3_intCast 1000
  have hfix : msToSeconds (normalizeTimestamp v) = normalizeTimestamp v := by
    simp only [msToSeconds]
    rw [if_neg (not_lt.mpr hn)]
  show round3 (msToSeconds (normalizeTimestamp v)) = normalizeTimestamp v
  rw [hfix]
  show round3 (round3 (msToSeconds v)) = normalizeTimestamp v
  rw [round3_idem]
  rfl

theorem normalization_idempotent_below_million_witness :
    (4 : ℚ) ≤ 1000000 ∧
    normalizeTimestamp (normalizeTimestamp 4) = normalizeTimestamp 4 :=
  ⟨by norm_num, normalization_idempotent_below_million 4 (by norm_num)⟩

/-- C1 (counterexample): with a known media duration D = 3, the raw segment
with start 5 and end 6 is clamped to end = 3 after the inversion repair, so
the validated output has end ≤ start and a negative duration — there is no
0 floor. -/
theorem validator_clamp_counterexample :
    (validateSegment (some 3) 0 ⟨none, none, some 5, none, some 6, none, none, []⟩).endTime ≤
      (validateSegment (some 3) 0 ⟨none, none, some 5, none, some 6, none, none, []⟩).start ∧
    (validateSegment (some 3) 0 ⟨none, none, some 5, none, some 6, none, none, []⟩).duration < 0 := by
  have hs : repairedStart ⟨none, none, some 5, none, some 6, none, none, []⟩ = 5 := by
    norm_num [repairedStart, rawStart, msToSeconds]
  have he : repairedEnd ⟨none, none, some 5, none, some 6, none, none, []⟩ = 6 := by
    norm_num [repairedEnd, rawEnd, msToSeconds, hs]
  have hc : clampedEnd (some 3) ⟨none, none, some 5, none, some 6, none, none, []⟩ = 3 := by
    norm_num [clampedEnd, he]
  have e3 : round3 (3 : ℚ) = 3 := by exact_mod_cast round3_intCast 3
  have e5 : round3 (5 : ℚ) = 5 := by exact_mod_cast round3_intCast 5
  have em2 : round3 ((3 : ℚ) - 5) = -2 := by
    rw [show (3 : ℚ) - 5 = ((-2 : ℤ) : ℚ) by norm_num, round3_intCast]
    norm_num
  constructor
  · show round3 (clampedEnd (some 3) _) ≤ round3 (repairedStart _)
    rw [hc, hs, e3, e5]; norm_num
  · show round3 (clampedEnd (some 3) _ - repairedStart _) < 0
    rw [hc, hs, em2]; norm_num

/-- C1 (amended): for every validated segment the pre-rounding repaired
values satisfy end > start and the output fields are exactly the 3-decimal
roundings of the repaired start, the clamped end, and their difference; when
the media duration D is known and nonzero the clamped end is ≤ D (and the
output end ≤ round3 D) — but the clamp runs after the inversion repair, so
it can push end to or below start, leaving a non-positive duration rather
than a 0 floor. -/
theorem validator_invariant_amended (D : Option ℚ) (index : Nat) (r : RawSegment) :
    repairedStart r < repairedEnd r ∧
    (validateSegment D index r).start = round3 (repairedStart r) ∧
    (validateSegment D index r).endTime = round3 (clampedEnd D r) ∧
    (validateSegment D index r).duration = round3 (clampedEnd D r - repairedStart r) ∧
    (∀ d : ℚ, D = some d → d ≠ 0 →
      clampedEnd D r ≤ d ∧ (validateSegment D index r).endTime ≤ round3 d) := by
  refine ⟨repairedStart_lt_repairedEnd r, rfl, rfl, rfl, ?_⟩
  rintro d rfl hd
  exact ⟨clampedEnd_le_duration d hd r,
    round3_mono (clampedEnd_le_duration d hd r)⟩

theorem validator_invariant_amended_witness :
    (some (3 : ℚ) = some (3 : ℚ) ∧ (3 : ℚ) ≠ 0) ∧
    (clampedEnd (some 3) ⟨none, none, some 5, none, some 6, none, none, []⟩ ≤ 3 ∧
     (validateSegment (some 3) 0 ⟨none, none, some 5, none, some 6, none, none, []⟩).endTime ≤
       round3 3) :=
  ⟨⟨rfl, by norm_num⟩,
   (validator_invariant_amended (some 3) 0
     ⟨none, none, some 5, none, some 6, none, none, []⟩).2.2.2.2 3 rfl (by norm_num)⟩

/-- C5 (counterexample): with a truthy source-reported duration of 5 and a
last segment ending at 10, `processVideo` keeps 5 — the source value wins
outright, it is not combined with the last segment end via max. -/
theorem transcript_duration_not_max :
    processTranscript (some 5) [⟨none, some "hi", some 0, none, some 10, none, none, []⟩] =
      Except.ok (validateSegments none [⟨none, some "hi", some 0, none, some 10, none, none, []⟩], 5) ∧
    (validateSegments none
        [⟨none, some "hi", some 0, none, some 10, none, none, []⟩]).getLast?.map
        TranscriptSegment.endTime = some 10 ∧
    (5 : ℚ) ≠ max 5 10 := by
  have hs : repairedStart ⟨none, some "hi", some 0, none, some 10, none, none, []⟩ = 0 := by
    norm_num [repairedStart, rawStart, msToSeconds]
  have he : repairedEnd ⟨none, some "hi", some 0, none, some 10, none, none, []⟩ = 10 := by
    norm_num [repairedEnd, rawEnd, msToSeconds, hs]
  have e10 : round3 (10 : ℚ) = 10 := by exact_mod_cast round3_intCast 10
  have e5 : round3 (5 : ℚ) = 5 := by exact_mod_cast round3_intCast 5
  have hlist : validateSegments none [⟨none, some "hi", some 0, none, some 10, none, none, []⟩] =
      [validateSegment none 0 ⟨none, some "hi", some 0, none, some 10, none, none, []⟩] := rfl
  refine ⟨?_, ?_, ?_⟩
  · have hdur : transcriptDuration (some 5)
        (validateSegments none [⟨none, some "hi", some 0, none, some 10, none, none, []⟩]) = 5 := by
      norm_num [transcriptDuration, msToSeconds]
    simp only [processTranscript, List.isEmpty_cons, Bool.false_eq_true, if_false, hdur, e5]
  · rw [hlist]
    simp only [List.getLast?_singleton, Option.map_some']
    show some (round3 (clampedEnd none _)) = some 10
    simp only [clampedEnd, he, e10]
  · rw [max_eq_right (by norm_num : (5 : ℚ) ≤ 10)]
    norm_num

/-- C5 (amended): the assembled duration equals the ms-normalized
source-reported duration whenever that value is nonzero (even if the last
segment ends later), and falls back to the last segment's end only when the
source value is zero or absent; an empty segment list is rejected with the
explicit error `No transcript segments generated` before any duration is
computed. -/
theorem transcript_duration_amended (srcDuration : Option ℚ) (rawSegs : List RawSegment) :
    (rawSegs = [] → processTranscript srcDuration rawSegs =
        Except.error "No transcript segments generated") ∧
    (rawSegs ≠ [] → processTranscript srcDuration rawSegs =
        Except.ok (validateSegments none rawSegs,
          round3 (transcriptDuration srcDuration (validateSegments none rawSegs)))) ∧
    (∀ segs : List TranscriptSegment,
      (msToSeconds (srcDuration.getD 0) ≠ 0 →
        transcriptDuration srcDuration segs = msToSeconds (srcDuration.getD 0)) ∧
      (msToSeconds (srcDuration.getD 0) = 0 →
        transcriptDuration srcDuration segs =
          ((segs.getLast?).map TranscriptSegment.endTime).getD 0)) := by
  refine ⟨?_, ?_, ?_⟩
  · rintro rfl
    rfl
  · intro h
    simp only [processTranscript]
    rw [if_neg (by simp [List.isEmpty_iff, h])]
  · intro segs
    constructor
    · intro hd
      simp only [transcriptDuration]
      rw [if_neg hd]
    · intro hd
      simp only [transcriptDuration]
      rw [if_pos hd]
      cases hli : segs.getLast? <;> simp [hli]

theorem transcript_duration_amended_witness :
    (([] : List RawSegment) = [] ∧
      processTranscript (some 5) ([] : List RawSegment) =
        Except.error "No transcript segments generated") ∧
    (msToSeconds ((some (5 : ℚ)).getD 0) ≠ 0 ∧
      transcriptDuration (some 5) ([] : List TranscriptSegment) =
        msToSeconds ((some (5 : ℚ)).getD 0)) :=
  ⟨⟨rfl, (transcript_duration_amended (some 5) []).1 rfl⟩,
   ⟨by norm_num [msToSeconds], ((transcript_duration_amended (some 5) []).2.2 []).1
      (by norm_num [msToSeconds])⟩⟩

/-- C6: validation is count-preserving and positional — N raw segments map
to N validated segments, and the i-th output is the validation of the i-th
input; no segment is dropped or reordered. -/
theorem validation_count_preserving (D : Option ℚ) (rs : List RawSegment) :
    (validateSegments D rs).length = rs.length ∧
    ∀ i : Nat, (validateSegments D rs)[i]? = (rs[i]?).map (validateSegment D i) := by
  have hlen : (validateSegments D rs).length = rs.length := by
    simp [validateSegments, List.length_mapIdx]
  refine ⟨hlen, ?_⟩
  intro i
  by_cases h : i < rs.length
  · have h2 : i < (validateSegments D rs).length := by rw [hlen]; exact h
    rw [List.getElem?_eq_getElem h2, List.getElem?_eq_getElem h]
    rw [← List.get_eq_getElem (validateSegments D rs) ⟨i, h2⟩,
      ← List.get_eq_getElem rs ⟨i, h⟩]
    rw [show (validateSegments D rs).get ⟨i, h2⟩ =
        validateSegment D i (rs.get ⟨i, h⟩) from List.get_mapIdx rs (validateSegment D) i h]
    simp
  · push_neg at h
    rw [List.getElem?_eq_none h, List.getElem?_eq_none (by rw [hlen]; exact h)]
    simp

/-- C7: whenever the ms-normalized end is at or below the repaired start,
the validator sets end = start + 1 (one-second floor), so with no known
media duration the validated segment ends at round3 (start + 1) with
duration exactly 1. -/
theorem inverted_segment_repair (index : Nat) (r : RawSegment)
    (h : msToSeconds (rawEnd r) ≤ repairedStart r) :
    repairedEnd r = repairedStart r + 1 ∧
    (validateSegment none index r).start = round3 (repairedStart r) ∧
    (validateSegment none index r).endTime = round3 (repairedStart r + 1) ∧
    (validateSegment none index r).duration = 1 := by
  have he : repairedEnd r = repairedStart r + 1 := by
    simp only [repairedEnd]
    rw [if_pos h]
  refine ⟨he, rfl, ?_, ?_⟩
  · show round3 (clampedEnd none r) = round3 (repairedStart r + 1)
    simp only [clampedEnd]
    rw [he]
  · show round3 (clampedEnd none r - repairedStart r) = 1
    simp only [clampedEnd]
    rw [he, show repairedStart r + 1 - repairedStart r = (1 : ℚ) by ring]
    exact_mod_cast round3_intCast 1

theorem inverted_segment_repair_witness :
    msToSeconds (rawEnd ⟨none, none, some 5, none, some 4, none, none, []⟩) ≤
      repairedStart ⟨none, none, some 5, none, some 4, none, none, []⟩ ∧
    (validateSegment none 0 ⟨none, none, some 5, none, some 4, none, none, []⟩).endTime =
      round3 (repairedStart ⟨none, none, some 5, none, some 4, none, none, []⟩ + 1) ∧
    (validateSegment none 0 ⟨none, none, some 5, none, some 4, none, none, []⟩).duration = 1 :=
  ⟨by norm_num [rawEnd, repairedStart, rawStart, msToSeconds],
   (inverted_segment_repair 0 ⟨none, none, some 5, none, some 4, none, none, []⟩
     (by norm_num [rawEnd, repairedStart, rawStart, msToSeconds])).2.2.1,
   (inverted_segment_repair 0 ⟨none, none, some 5, none, some 4, none, none, []⟩
     (by norm_num [rawEnd, repairedStart, rawStart, msToSeconds])).2.2.2⟩

theorem foldl_push_eq_map {α β : Type} (g : α → β) :
    ∀ (l : List α) (acc : List β),
      l.foldl (fun fs c => fs ++ [g c]) acc = acc ++ l.map g := by
  intro l
  induction l with
  | nil => intro acc; simp
  | cons a t ih => intro acc; simp [ih]

/-- C8: the extraction loop visits the clips in list order and the
concatenation instruction lists the extracted outputs in that same order,
so the concatenated output order equals the input clip order. -/
theorem merge_preserves_order (clips : List MergeClip) :
    extractClips clips = clips.map extractClip ∧
    concatOrder clips = clips.map extractClip ∧
    ∀ i : Nat, (concatOrder clips)[i]? = (clips[i]?).map extractClip := by
  have h : extractClips clips = clips.map extractClip := by
    simpa using foldl_push_eq_map extractClip clips []
  refine ⟨h, h, ?_⟩
  intro i
  show (extractClips clips)[i]? = _
  rw [h]
  exact List.getElem?_map extractClip clips i

theorem validateMergeClipsFrom_zero_start :
    ∀ (clips : List RawMergeClip) (i : Nat),
      (∃ c ∈ clips, c.startTime = some 0) →
      ∃ msg, validateMergeClipsFrom i clips = Except.error msg := by
  intro clips
  induction clips with
  | nil =>
    intro i h
    rcases h with ⟨c, hc, _⟩
    exact absurd hc (List.not_mem_nil c)
  | cons a t ih =>
    intro i h
    simp only [validateMergeClipsFrom]
    by_cases ha : (jsFalsyStr a.videoId || jsFalsyNum a.startTime || jsFalsyNum a.endTime) = true
    · rw [if_pos ha]
      exact ⟨_, rfl⟩
    · rw [if_neg ha]
      rcases h with ⟨c, hc, hzero⟩
      rcases List.mem_cons.mp hc with rfl | hct
      · exact absurd (by simp [jsFalsyNum, hzero]) ha
      · exact ih (i + 1) ⟨c, hct, hzero⟩

/-- C10: the merge validation uses JS falsiness on `startTime`, so any batch
containing a clip whose startTime is exactly 0 is rejected with the
`Invalid clip at index ...` error and no extraction plan is built — the
whole merge aborts. -/
theorem zero_start_time_rejected (clips : List RawMergeClip)
    (h : ∃ c ∈ clips, c.startTime = some 0) :
    ∃ msg, videoMergeClipsPlan clips = Except.error msg := by
  rcases validateMergeClipsFrom_zero_start clips 0 h with ⟨msg, hmsg⟩
  exact ⟨msg, by simp [videoMergeClipsPlan, hmsg]⟩

theorem zero_start_time_rejected_witness :
    (∃ c ∈ [(⟨some "v", some 0, some 10⟩ : RawMergeClip)], c.startTime = some 0) ∧
    ∃ msg, videoMergeClipsPlan [(⟨some "v", some 0, some 10⟩ : RawMergeClip)] =
      Except.error msg :=
  ⟨⟨⟨some "v", some 0, some 10⟩, List.mem_singleton.mpr rfl, rfl⟩,
   zero_start_time_rejected [⟨some "v", some 0, some 10⟩]
     ⟨⟨some "v", some 0, some 10⟩, List.mem_singleton.mpr rfl, rfl⟩⟩

theorem pollLoop_times_out (stream : Nat → PollStatus)
    (h : ∀ i : Nat, i ≤ 121 →
      stream i = PollStatus.queued ∨ stream i = PollStatus.processing) :
    ∀ n i : Nat, i ≤ 121 → 121 - i ≤ n →
      pollLoop stream i (pollIntervalMs * i) =
        Except.error TranscriptFailure.transcriptionTimeout := by
  intro n
  induction n with
  | zero =>
    intro i h1 h2
    have hi : i = 121 := by omega
    subst hi
    rw [pollLoop]
    rcases h 121 (le_refl 121) with hq | hq <;>
      rw [hq] <;>
      simp only [] <;>
      rw [dif_pos (by norm_num [pollTimeoutMs, pollIntervalMs])]
  | succ n ih =>
    intro i h1 h2
    by_cases hi : i = 121
    · subst hi
      rw [pollLoop]
      rcases h 121 (le_refl 121) with hq | hq <;>
        rw [hq] <;>
        simp only [] <;>
        rw [dif_pos (by norm_num [pollTimeoutMs, pollIntervalMs])]
    · have hlt : i < 121 := lt_of_le_of_ne h1 hi
      have hcond : ¬ pollTimeoutMs < pollIntervalMs * i := by
        simp only [pollTimeoutMs, pollIntervalMs]
        omega
      rw [pollLoop]
      rcases h i h1 with hq | hq <;>
        rw [hq] <;>
        simp only [] <;>
        rw [dif_neg hcond] <;>
        rw [show pollIntervalMs * i + pollIntervalMs = pollIntervalMs * (i + 1) by ring] <;>
        exact ih (i + 1) (by omega) (by omega)

/-- C9: if the service stays pending through the whole 10-minute budget
(poll checks advance the clock by the fixed 5-second interval, so the
budget covers checks 0 through 121), the poll loop surfaces the dedicated
transcription-timeout condition, which is distinct from the service-error
condition carrying the provider's own message. -/
theorem transcription_timeout_distinct (stream : Nat → PollStatus)
    (h : ∀ i : Nat, i ≤ 121 →
      stream i = PollStatus.queued ∨ stream i = PollStatus.processing) :
    assemblyPoll stream = Except.error TranscriptFailure.transcriptionTimeout ∧
    ∀ m : String,
      (TranscriptFailure.transcriptionTimeout : TranscriptFailure) ≠
        TranscriptFailure.serviceFailure m := by
  constructor
  · have := pollLoop_times_out stream h 121 0 (by omega) (by omega)
    simpa [assemblyPoll] using this
  · intro m hEq
    cases hEq

theorem transcription_timeout_distinct_witness :
    assemblyPoll (fun _ => PollStatus.processing) =
      Except.error TranscriptFailure.transcriptionTimeout :=
  (transcription_timeout_distinct (fun _ => PollStatus.processing)
    (fun _ _ => Or.inr rfl)).1

theorem lookup_cons_model (v k : String) (b : ℚ) (l : List (String × ℚ)) :
    ((k, b) :: l).lookup v = if v = k then some b else l.lookup v := by
  by_cases h : v = k
  · simp [List.lookup, h]
  · have hb : (v == k) = false := beq_eq_false_iff_ne.mpr h
    simp [List.lookup, hb, h]

/-- The invariant the scheduler fold maintains: per source id, the accepted
sub-timeline respects the minimum gap, and the association list holds the
end of that sub-timeline's last clip. -/
def schedInv (st : List ScheduledClip × List (String × ℚ)) : Prop :=
  ∀ v : String,
    List.Chain' (fun a b => a.endTime + minGapSeconds ≤ b.startTime)
      (st.1.filter fun c => c.videoId == v) ∧
    st.2.lookup v =
      ((st.1.filter fun c => c.videoId == v).getLast?).map ScheduledClip.endTime

theorem schedInv_accept (st : List ScheduledClip × List (String × ℚ))
    (c : ClipCandidate) (s e : ℚ) (h : schedInv st)
    (hgap : ∀ pe : ℚ, st.2.lookup c.videoId = some pe → pe + minGapSeconds ≤ s) :
    schedInv (st.1 ++ [⟨c.videoId, c.transcriptText, s, e⟩], (c.videoId, e) :: st.2) := by
  intro v
  obtain ⟨hch, hlk⟩ := h v
  by_cases hv : c.videoId = v
  · subst hv
    have hsingle : List.filter (fun x => x.videoId == c.videoId)
        [(⟨c.videoId, c.transcriptText, s, e⟩ : ScheduledClip)] =
        [⟨c.videoId, c.transcriptText, s, e⟩] := by
      simp [List.filter_cons]
    constructor
    · rw [List.filter_append, hsingle]
      refine List.Chain'.append hch (List.chain'_singleton _) ?_
      intro x hx y hy
      have hxlast : (List.filter (fun x => x.videoId == c.videoId) st.1).getLast? = some x :=
        Option.mem_def.mp hx
      have hyy : ([( ⟨c.videoId, c.transcriptText, s, e⟩ : ScheduledClip)]).head? = some y :=
        Option.mem_def.mp hy
      simp only [List.head?_cons] at hyy
      injection hyy with hyy
      subst hyy
      have hpe : st.2.lookup c.videoId = some x.endTime := by
        rw [hlk, hxlast, Option.map_some']
      exact hgap x.endTime hpe
    · rw [lookup_cons_model, if_pos rfl, List.filter_append, hsingle,
        List.getLast?_concat, Option.map_some']
  · have hnil : List.filter (fun x => x.videoId == v)
        [(⟨c.videoId, c.transcriptText, s, e⟩ : ScheduledClip)] = [] := by
      simp [List.filter_cons, hv]
    constructor
    · rw [List.filter_append, hnil, List.append_nil]
      exact hch
    · rw [lookup_cons_model, if_neg (fun hh => hv hh.symm),
        List.filter_append, hnil, List.append_nil]
      exact hlk

theorem scheduleStep_inv (durOf : String → Option ℚ)
    (st : List ScheduledClip × List (String × ℚ)) (c : ClipCandidate)
    (h : schedInv st) : schedInv (scheduleStep durOf st c) := by
  simp only [scheduleStep]
  split
  · next heq =>
    apply schedInv_accept st c _ _ h
    intro pe hpe
    rw [heq] at hpe
    cases hpe
  · next pe heq =>
    split
    · next h1 =>
      split
      · next h2 => exact h
      · next h2 =>
        apply schedInv_accept st c _ _ h
        intro pe2 hpe2
        rw [heq] at hpe2
        injection hpe2 with hpe2
        subst hpe2
        exact le_refl _
    · next h1 =>
      apply schedInv_accept st c _ _ h
      intro pe2 hpe2
      rw [heq] at hpe2
      injection hpe2 with hpe2
      subst hpe2
      push_neg at h1
      exact h1

theorem schedInv_init :
    schedInv (([] : List ScheduledClip), ([] : List (String × ℚ))) := by
  intro v
  constructor
  · simp
  · simp [List.lookup]

theorem schedule_foldl_inv (durOf : String → Option ℚ) :
    ∀ (cands : List ClipCandidate) (st : List ScheduledClip × List (String × ℚ)),
      schedInv st → schedInv (cands.foldl (scheduleStep durOf) st) := by
  intro cands
  induction cands with
  | nil => intro st h; simpa using h
  | cons a t ih => intro st h; exact ih _ (scheduleStep_inv durOf st a h)

/-- C4: the scheduler's output timeline keeps, per source, every accepted
clip at least `minGapSeconds` after the previous accepted clip's end; and a
candidate whose gap-shifted start reaches or passes its adjusted end leaves
the state untouched — it is discarded, not a crash. -/
theorem scheduler_gap_invariant (durOf : String → Option ℚ)
    (cands : List ClipCandidate)
    (st : List ScheduledClip × List (String × ℚ)) (c : ClipCandidate) (pe : ℚ)
    (h1 : st.2.lookup c.videoId = some pe)
    (h2 : paddedStart c < pe + minGapSeconds)
    (h3 : boundedEnd durOf c ≤ pe + minGapSeconds) :
    sameSourceGapFree (scheduleClips durOf cands) ∧
    scheduleStep durOf st c = st := by
  constructor
  · intro v
    exact (schedule_foldl_inv durOf cands ([], []) schedInv_init v).1
  · simp only [scheduleStep]
    split
    · next heq =>
      rw [heq] at h1
      cases h1
    · next pe2 heq =>
      rw [heq] at h1
      injection h1 with h1
      subst h1
      rw [if_pos h2, if_pos (ge_iff_le.mpr h3)]

theorem scheduler_gap_invariant_witness :
    ((([] : List ScheduledClip), [("a", (100 : ℚ))]).2.lookup "a" = some 100 ∧
     paddedStart ⟨"a", "t", 5, 6⟩ < 100 + minGapSeconds ∧
     boundedEnd (fun _ => none) ⟨"a", "t", 5, 6⟩ ≤ 100 + minGapSeconds) ∧
    (sameSourceGapFree
        (scheduleClips (fun _ => none) [⟨"a", "t1", 10, 11⟩, ⟨"a", "t2", 13, 14⟩]) ∧
     scheduleStep (fun _ => none) (([] : List ScheduledClip), [("a", (100 : ℚ))])
         ⟨"a", "t", 5, 6⟩ =
       (([] : List ScheduledClip), [("a", (100 : ℚ))])) := by
  have h1W : ((([] : List ScheduledClip), [("a", (100 : ℚ))]).2.lookup "a") = some 100 := by
    simp [List.lookup]
  have hr5 : round2 (5 : ℚ) = 5 := by exact_mod_cast round2_intCast 5
  have hr6 : round2 (6 : ℚ) = 6 := by exact_mod_cast round2_intCast 6
  have h2W : paddedStart ⟨"a", "t", 5, 6⟩ < 100 + minGapSeconds := by
    norm_num [paddedStart, startPaddingSeconds, minGapSeconds, hr5]
  have h3W : boundedEnd (fun _ => none) ⟨"a", "t", 5, 6⟩ ≤ 100 + minGapSeconds := by
    norm_num [boundedEnd, paddedStart, startPaddingSeconds, endPaddingSeconds,
      minDurationSeconds, maxDurationSeconds, minGapSeconds, hr5, hr6]
  exact ⟨⟨h1W, h2W, h3W⟩,
    scheduler_gap_invariant (fun _ => none) [⟨"a", "t1", 10, 11⟩, ⟨"a", "t2", 13, 14⟩]
      (([] : List ScheduledClip), [("a", (100 : ℚ))]) ⟨"a", "t", 5, 6⟩ 100 h1W h2W h3W⟩
